import Mathlib

/-!
# Verification of the draw-lot slot engine (`src/assets/js/Slot.ts`)

Shallow embedding of the `Slot` class: the shuffle routine `shuffleNames`,
the reel-population policy inside `spin`, winner logging (`addWinner`),
winner removal, the prize queue (`getActivePrizeToDraw` and the prize pop),
`forceStopSpin`, the setters and the constructor.

The browser's random source `Math.random() * n | 0` is modelled as a
function `r : Nat → Nat → Nat`, where `r k n` is the integer drawn at the
k-th loop step when the current range is `[0, n)`; `wfRand r` states the
guarantee that the real source provides, namely `r k n < n` for `n > 0`.

JavaScript-specific behaviour is embedded faithfully:
* `array[array.length - 1]` on an empty array is `undefined`, and a template
  literal renders it as the string `"undefined"` (`spinWinnerName`);
* `Array.prototype.slice(0, e)` with a negative `e` counts from the end
  (`jsSliceTo` takes an `Int` bound);
* `splice(idx, 1)` after `findIndex` returned `-1` removes the *last*
  element (`spliceRemoveWinner`).

All state lives in `SlotState`; lifecycle callbacks are modelled as a list
of emitted `SlotEvent`s. DOM rendering and the animation timing are outside
the embedded core; the `reelOk` flag of `spin` stands for the presence of
the reel container and its animation object.
-/

/-- The well-formedness guarantee of the random source: each draw at range
`n > 0` lands in `[0, n)`, exactly as `Math.random() * n | 0` does. -/
def wfRand (r : Nat → Nat → Nat) : Prop := ∀ k n, 0 < n → r k n < n

section Shuffle

variable {α : Type} [Inhabited α]

/-- Swap the entries at positions `i` and `j` of a list (both reads happen
before both writes, as in the JavaScript swap sequence). -/
def listSwap (l : List α) (i j : Nat) : List α :=
  (l.set i (l.getD j default)).set j (l.getD i default)

/-- The loop of `Slot.shuffleNames` (`Slot.ts` lines 162-176), transcribed
step by step.  `keys` starts as `Object.keys(array)` (the index list),
`n` as its length, `k` as the loop counter and `result` as the output
accumulator.  One unit of `fuel` is spent per iteration; the initial call
passes `array.length`, which is exactly the number of iterations the
JavaScript loop performs, so the fuel never runs out early. -/
def shuffleLoop (r : Nat → Nat → Nat) (array : List α) :
    Nat → Nat → List Nat → Nat → List α → List α
  | 0, _, _, _, result => result
  | fuel + 1, k, keys, n, result =>
    if k < array.length ∧ 0 < n then
      shuffleLoop r array fuel (k + 1)
        ((keys.set (n - 1) (keys.getD (r k n) 0)).set (r k n) (keys.getD (n - 1) 0))
        (n - 1)
        (result ++ [array.getD (keys.getD (r k n) 0) default])
    else result

/-- `Slot.shuffleNames`: returns a new array with the items shuffled,
drawing a random still-unused key at each step. -/
def shuffleNames (r : Nat → Nat → Nat) (array : List α) : List α :=
  shuffleLoop r array array.length 0 (List.range array.length) array.length []

/-- The reference algorithm named by the specification: in-place
Fisher-Yates over a working copy, iterating the current index from the last
position down to the first and, at each step, drawing a uniform random
index in `[0, currentIndex]` and swapping the two positions.  `m + 1` is
the number of positions still to process, so the current index is `m`;
`k` numbers the draw so that the reference consumes the same draw stream
`r 0 len, r 1 (len-1), ...` as `shuffleNames`. -/
def fyLoop (r : Nat → Nat → Nat) : Nat → Nat → List α → List α
  | _, 0, a => a
  | k, m + 1, a => fyLoop r (k + 1) m (listSwap a (r k (m + 1)) m)

/-- Modelled from the spec: the full reference Fisher-Yates shuffle over a
working copy of the input. -/
def fisherYates (r : Nat → Nat → Nat) (a : List α) : List α :=
  fyLoop r 0 a.length a

end Shuffle

section ShuffleSanity

/-- Sanity: with the all-zero draw stream, the selection-based shuffle of a
two-element list keeps the order. -/
example : shuffleNames (fun _ _ => 0) (["a", "b"] : List String) = ["a", "b"] := by decide

/-- Sanity: the reference Fisher-Yates with the same draw stream swaps. -/
example : fisherYates (fun _ _ => 0) (["a", "b"] : List String) = ["b", "a"] := by decide

example : shuffleNames (fun _ _ => 0) (["a", "b", "c"] : List String) = ["a", "c", "b"] := by decide

example : fisherYates (fun _ _ => 0) (["a", "b", "c"] : List String) = ["b", "c", "a"] := by decide

example :
    shuffleNames (fun k n => k % n) (["a", "b", "c", "d"] : List String)
      = (fisherYates (fun k n => k % n) (["a", "b", "c", "d"] : List String)).reverse := by decide

end ShuffleSanity

section ShuffleLemmas

variable {α : Type} [Inhabited α]

lemma getD_set_self (l : List α) (i : Nat) (x d : α) (h : i < l.length) :
    (l.set i x).getD i d = x := by
  rw [List.getD_eq_getElem?_getD]
  rw [List.getElem?_set_self (by simpa using h)]
  rfl

lemma getD_set_ne (l : List α) (i j : Nat) (x d : α) (h : i ≠ j) :
    (l.set i x).getD j d = l.getD j d := by
  rw [List.getD_eq_getElem?_getD, List.getElem?_set_ne h, ← List.getD_eq_getElem?_getD]

lemma getD_map_of_lt {β : Type} [Inhabited β] (g : β → α) (l : List β) (i : Nat) (d : β)
    (h : i < l.length) :
    (l.map g).getD i default = g (l.getD i d) := by
  rw [List.getD_eq_getElem l d h, List.getD_eq_getElem (l.map g) default (by simpa using h)]
  simp

@[simp] lemma listSwap_length (l : List α) (i j : Nat) :
    (listSwap l i j).length = l.length := by
  simp [listSwap]

lemma fyLoop_length (r : Nat → Nat → Nat) :
    ∀ (m k : Nat) (a : List α), (fyLoop r k m a).length = a.length
  | 0, _, _ => rfl
  | m + 1, k, a => by
    rw [fyLoop, fyLoop_length r m (k + 1)]
    simp

/-- `fyLoop` with `m` positions left only writes below index `m`: every
position at or above `m` keeps its value (given a well-formed stream). -/
lemma fyLoop_getD_high (r : Nat → Nat → Nat) (hr : wfRand r) :
    ∀ (m k p : Nat) (a : List α), m ≤ p →
      (fyLoop r k m a).getD p default = a.getD p default
  | 0, _, _, _, _ => rfl
  | m + 1, k, p, a, hp => by
    rw [fyLoop, fyLoop_getD_high r hr m (k + 1) p _ (by omega)]
    have hj : r k (m + 1) < m + 1 := hr k (m + 1) (Nat.succ_pos m)
    rw [listSwap, getD_set_ne _ _ _ _ _ (by omega), getD_set_ne _ _ _ _ _ (by omega)]

/-- `a :: l` with the element at position `q` of `l` pulled to the front and
`x` written in its place is a permutation of `x :: a :: l`. -/
lemma getD_cons_set_perm (t : List α) (q : Nat) (x d : α) (h : q < t.length) :
    (t.getD q d :: t.set q x).Perm (x :: t) := by
  induction t generalizing q with
  | nil => simp at h
  | cons y t ih =>
    cases q with
    | zero => simpa using List.Perm.swap x y t
    | succ q =>
      have hq : q < t.length := by simpa using h
      exact (List.Perm.swap _ _ _).trans (((ih q hq).cons y).trans (List.Perm.swap _ _ _))

lemma set_getD_self (l : List α) (i : Nat) (d : α) : l.set i (l.getD i d) = l := by
  induction l generalizing i with
  | nil => rfl
  | cons x t ih =>
    cases i with
    | zero => rfl
    | succ i => simpa using ih i

lemma listSwap_perm :
    ∀ (l : List α) (i j : Nat), i < l.length → j < l.length → (listSwap l i j).Perm l
  | [], i, j, hi, _ => by simp at hi
  | x :: t, 0, 0, _, _ => by
    simp [listSwap]
  | x :: t, 0, j + 1, _, hj => by
    have hjt : j < t.length := by simpa using hj
    have : listSwap (x :: t) 0 (j + 1) = t.getD j default :: t.set j x := by
      simp [listSwap, List.getD_cons_succ]
    rw [this]
    exact getD_cons_set_perm t j x default hjt
  | x :: t, i + 1, 0, hi, _ => by
    have hit : i < t.length := by simpa using hi
    have : listSwap (x :: t) (i + 1) 0 = t.getD i default :: t.set i x := by
      simp [listSwap, List.getD_cons_succ]
    rw [this]
    exact getD_cons_set_perm t i x default hit
  | x :: t, i + 1, j + 1, hi, hj => by
    have : listSwap (x :: t) (i + 1) (j + 1) = x :: listSwap t i j := by
      simp [listSwap, List.getD_cons_succ]
    rw [this]
    exact (listSwap_perm t i j (by simpa using hi) (by simpa using hj)).cons x

lemma fyLoop_perm (r : Nat → Nat → Nat) (hr : wfRand r) :
    ∀ (m k : Nat) (a : List α), m ≤ a.length → (fyLoop r k m a).Perm a
  | 0, _, _, _ => List.Perm.refl _
  | m + 1, k, a, hm => by
    have hj : r k (m + 1) < m + 1 := hr k (m + 1) (Nat.succ_pos m)
    rw [fyLoop]
    have h1 : (fyLoop r (k + 1) m (listSwap a (r k (m + 1)) m)).Perm
        (listSwap a (r k (m + 1)) m) :=
      fyLoop_perm r hr m (k + 1) _ (by simp; omega)
    exact h1.trans (listSwap_perm a _ m (by omega) (by omega))

end ShuffleLemmas

section ShuffleFY

variable {α : Type} [Inhabited α]

/-- Writing `x` at `i` and `y` at `j` commutes with writing them in the
other order, provided the two values agree when the indices collide. -/
lemma set_set_swap (B : List α) (i j : Nat) (x y : α) (hxy : i = j → x = y) :
    (B.set i x).set j y = (B.set j y).set i x := by
  by_cases hij : i = j
  · subst hij
    rw [hxy rfl]
  · exact List.set_comm x y B hij

/-- The swap that the reference Fisher-Yates performs on the *value* list is
the image under `map g` of the key swap that `shuffleLoop` performs. -/
lemma listSwap_map_keys (g : Nat → α) (keys : List Nat) (i m : Nat)
    (hi : i < keys.length) (hm : m < keys.length) :
    listSwap (keys.map g) i m
      = ((keys.set m (keys.getD i 0)).set i (keys.getD m 0)).map g := by
  have h1 : (keys.map g).getD m default = g (keys.getD m 0) := by
    rw [List.getD_eq_getElem keys 0 hm, List.getD_eq_getElem (keys.map g) default (by simpa using hm)]
    simp
  have h2 : (keys.map g).getD i default = g (keys.getD i 0) := by
    rw [List.getD_eq_getElem keys 0 hi, List.getD_eq_getElem (keys.map g) default (by simpa using hi)]
    simp
  rw [listSwap, h1, h2, List.map_set, List.map_set]
  exact set_set_swap _ i m _ _ (by intro h; subst h; rfl)

/-- Central correspondence: each iteration of `shuffleLoop` appends the very
element that the reference Fisher-Yates finalises at the current (highest
unprocessed) position, so the remaining output of `shuffleLoop` is the
reverse of the first `n` positions of the finished Fisher-Yates array. -/
lemma shuffleLoop_eq_fyLoop (r : Nat → Nat → Nat) (hr : wfRand r) (array : List α) :
    ∀ (n fuel k : Nat) (keys : List Nat) (result : List α),
      keys.length = array.length → n + k = array.length → n ≤ fuel →
      shuffleLoop r array fuel k keys n result
        = result
          ++ ((fyLoop r k n (keys.map fun key => array.getD key default)).take n).reverse := by
  intro n
  induction n with
  | zero =>
    intro fuel k keys result hkeys hnk hfuel
    cases fuel with
    | zero => simp [shuffleLoop, fyLoop]
    | succ f => simp [shuffleLoop, fyLoop]
  | succ m ih =>
    intro fuel k keys result hkeys hnk hfuel
    obtain ⟨f, rfl⟩ : ∃ f, fuel = f + 1 := ⟨fuel - 1, by omega⟩
    have hk : k < array.length := by omega
    have hcond : k < array.length ∧ 0 < m + 1 := ⟨hk, Nat.succ_pos m⟩
    have hi : r k (m + 1) < m + 1 := hr k (m + 1) (Nat.succ_pos m)
    have hiK : r k (m + 1) < keys.length := by omega
    have hmK : m < keys.length := by omega
    rw [shuffleLoop, if_pos hcond]
    have hm1 : m + 1 - 1 = m := rfl
    rw [hm1]
    set i := r k (m + 1) with hidef
    set key := keys.getD i 0 with hkey
    set tmp := keys.getD m 0 with htmp
    set keys' := (keys.set m key).set i tmp with hkeys'
    have hkeys'len : keys'.length = array.length := by
      rw [hkeys']; simpa using hkeys
    rw [ih f (k + 1) keys' (result ++ [array.getD key default]) hkeys'len (by omega) (by omega)]
    rw [fyLoop]
    rw [listSwap_map_keys (fun key => array.getD key default) keys i m hiK hmK]
    rw [← hkey, ← htmp, ← hkeys']
    set L := fyLoop r (k + 1) m (keys'.map fun key => array.getD key default) with hL
    have hLlen : L.length = array.length := by
      rw [hL, fyLoop_length]; simpa using hkeys'len
    have hmL : m < L.length := by omega
    have hkeys'm : keys'.getD m 0 = key := by
      rw [hkeys']
      by_cases him : i = m
      · rw [him, getD_set_self _ _ _ _ (by simpa using hmK), htmp, hkey, him]
      · rw [getD_set_ne _ _ _ _ _ him, getD_set_self _ _ _ _ hmK]
    have hLm : L.getD m default = array.getD key default := by
      rw [hL, fyLoop_getD_high r hr m (k + 1) m _ (le_refl m)]
      rw [getD_map_of_lt _ keys' m 0 (by omega), hkeys'm]
    have htake : L.take (m + 1) = L.take m ++ [array.getD key default] := by
      rw [List.take_succ, List.getElem?_eq_getElem hmL]
      have : L[m] = array.getD key default := by
        rw [← List.getD_eq_getElem L default hmL, hLm]
      rw [this]
      rfl
    rw [htake, List.reverse_append]
    simp

/-- The shuffle that the source implements returns exactly the reverse of
the reference Fisher-Yates shuffle run on the same draw stream. -/
lemma shuffleNames_eq_reverse_fisherYates (r : Nat → Nat → Nat) (hr : wfRand r)
    (array : List α) : shuffleNames r array = (fisherYates r array).reverse := by
  rw [shuffleNames, fisherYates]
  rw [shuffleLoop_eq_fyLoop r hr array array.length array.length 0 (List.range array.length) []
    (by simp) (by simp) (le_refl _)]
  have hmap : ∀ (l : List α), (List.range l.length).map (fun key => l.getD key default) = l := by
    intro l
    induction l with
    | nil => rfl
    | cons x t iht =>
      rw [List.length_cons, List.range_succ_eq_map, List.map_cons, List.map_map]
      have h2 : (fun key => (x :: t).getD key default) ∘ Nat.succ
          = fun key => t.getD key default := by
        funext q
        simp [List.getD_cons_succ]
      rw [h2, List.getD_cons_zero, iht]
  rw [hmap array]
  have hlen : (fyLoop r 0 array.length array).length = array.length := fyLoop_length r _ 0 array
  rw [List.take_of_length_le (le_of_eq hlen), List.nil_append]

/-- The implemented shuffle is a permutation of its input. -/
lemma shuffleNames_perm (r : Nat → Nat → Nat) (hr : wfRand r) (l : List α) :
    (shuffleNames r l).Perm l := by
  rw [shuffleNames_eq_reverse_fisherYates r hr]
  exact (List.reverse_perm _).trans (fyLoop_perm r hr l.length 0 l (le_refl _))

lemma shuffleNames_length (r : Nat → Nat → Nat) (hr : wfRand r) (l : List α) :
    (shuffleNames r l).length = l.length :=
  (shuffleNames_perm r hr l).length_eq

lemma shuffleNames_mem (r : Nat → Nat → Nat) (hr : wfRand r) (l : List α) (x : α)
    (hx : x ∈ shuffleNames r l) : x ∈ l :=
  ((shuffleNames_perm r hr l).mem_iff).mp hx

end ShuffleFY

section SlotModel

/-- The lifecycle callbacks of `SlotConfigurations`, modelled as events
emitted to the host (`onSpinStart`, `onSpinEnd`, `onNameListChanged`). -/
inductive SlotEvent where
  | spinStart
  | spinEnd
  | nameListChanged
deriving DecidableEq

/-- The constructor configuration of `Slot` that the embedded core uses:
`maxReelItems` (source default 30) and `removeWinner` (source default
true).  The DOM selector and the callbacks are outside the pure core. -/
structure SlotConfig where
  maxReelItems : Nat := 30
  removeWinner : Bool := true
deriving DecidableEq

/-- The mutable fields of the `Slot` class. -/
structure SlotState where
  nameList : List String
  prizeList : List String
  winnerList : List String
  randomNames : List String
  havePreviousWinner : Bool
  maxReelItems : Nat
  shouldRemoveWinner : Bool
deriving DecidableEq

/-- The result of an engine call: the returned boolean, the state after the
call and the callbacks fired, in order. -/
structure SpinOutcome where
  success : Bool
  state : SlotState
  events : List SlotEvent
deriving DecidableEq

/-- The `Slot` constructor (`Slot.ts` lines 61-101): every field starts
empty/false, the configuration is stored unchecked.  Note that the source
performs no validation whatsoever on `maxReelItems`. -/
def mkSlot (cfg : SlotConfig) : SlotState :=
  ⟨[], [], [], [], false, cfg.maxReelItems, cfg.removeWinner⟩

/-- The `names` setter: replaces the name list wholesale, clears the flag
for a displayed previous winner and fires `onNameListChanged`. -/
def setNames (s : SlotState) (names : List String) : SlotState × List SlotEvent :=
  ({ s with nameList := names, havePreviousWinner := false }, [SlotEvent.nameListChanged])

/-- `Slot.getActivePrizeToDraw` (lines 266-268): the head of the prize
list, or the sentinel `"-------"` when the list is empty. -/
def getActivePrizeToDraw (s : SlotState) : String :=
  if s.prizeList.length ≤ 0 then "-------" else s.prizeList.getD 0 ""

/-- The `while` loop of `spin` (lines 200-202): keep doubling the shuffled
list while it is non-empty and shorter than `maxReelItems`.  The initial
call passes `maxReelItems` as fuel, which is always enough: a non-empty
list reaches length `≥ 2 ^ fuel ≥ maxReelItems` after `fuel` doublings, so
the loop guard is already false whenever the fuel runs out. -/
def padLoop (maxReelItems : Nat) : Nat → List String → List String
  | 0, l => l
  | fuel + 1, l =>
    if 0 < l.length ∧ l.length < maxReelItems then padLoop maxReelItems fuel (l ++ l) else l

/-- JavaScript `Array.prototype.slice(0, e)`: a negative end index counts
from the end of the array. -/
def jsSliceTo {α : Type} (l : List α) (e : Int) : List α :=
  if e < 0 then l.take (l.length - e.natAbs) else l.take e.toNat

/-- The reel-population policy of `spin` (lines 200-205): double the
shuffled list up to `maxReelItems`, then
`slice(0, maxReelItems - Number(havePreviousWinner))`. -/
def populateReel (maxReelItems : Nat) (havePrev : Bool) (shuffled : List String) : List String :=
  jsSliceTo (padLoop maxReelItems maxReelItems shuffled)
    ((maxReelItems : Int) - (if havePrev then 1 else 0))

/-- `this.randomNames[this.randomNames.length - 1]` as interpolated into
the winner log entry: the last element, or the string `"undefined"` when
the populated reel is empty (JavaScript renders the out-of-bounds read
`undefined` as that string inside a template literal). -/
def spinWinnerName (rn : List String) : String := rn.getLast?.getD "undefined"

/-- Winner removal (lines 224-228):
`nameList.splice(nameList.findIndex(name === winner), 1)`.  When
`findIndex` misses it returns `-1`, and `splice(-1, 1)` removes the *last*
element of the list. -/
def spliceRemoveWinner (l : List String) (w : String) : List String :=
  match l.findIdx? (fun name => name == w) with
  | some i => l.eraseIdx i
  | none => l.eraseIdx (l.length - 1)

/-- `Slot.spin` (lines 182-260).  `reelOk` models the presence of the reel
container and its animation object (the `!reelContainer || !reelAnimation`
guard); the animation await itself carries no state.  Returns the boolean
result, the post-state and the fired callbacks. -/
def spin (reelOk : Bool) (r : Nat → Nat → Nat) (s : SlotState) : SpinOutcome :=
  if s.nameList.length = 0 then ⟨false, s, []⟩
  else if reelOk = false then ⟨false, s, [SlotEvent.spinStart]⟩
  else
    let rn := populateReel s.maxReelItems s.havePreviousWinner (shuffleNames r s.nameList)
    let w := spinWinnerName rn
    ⟨true,
      { s with
          randomNames := rn,
          winnerList := s.winnerList ++ [getActivePrizeToDraw s ++ " - " ++ w],
          nameList := if s.shouldRemoveWinner then spliceRemoveWinner s.nameList w
            else s.nameList,
          prizeList := s.prizeList.drop 1,
          havePreviousWinner := true },
      [SlotEvent.spinStart, SlotEvent.spinEnd]⟩

/-- `Slot.forceStopSpin` (lines 270-287): unconditionally finishes the
animation, collapses the reel, sets `havePreviousWinner`, fires
`onSpinEnd` and returns `true` — there is no check of any spin state. -/
def forceStopSpin (s : SlotState) : SpinOutcome :=
  ⟨true, { s with havePreviousWinner := true }, [SlotEvent.spinEnd]⟩

end SlotModel

section SlotSanity

/-- Sanity: the concrete scenario of the specification, one spin with
names Alice/Bob/Carol, prize Gold, `maxReelItems = 3`. -/
example :
    (spin true (fun _ _ => 0)
      ⟨["Alice", "Bob", "Carol"], ["Gold"], [], [], false, 3, true⟩).state.winnerList
      = ["Gold - Bob"] := by decide

example :
    (spin true (fun _ _ => 0)
      ⟨["Alice", "Bob", "Carol"], ["Gold"], [], [], false, 3, true⟩).state.nameList
      = ["Alice", "Carol"] := by decide

example :
    (spin true (fun _ _ => 0)
      ⟨["Alice", "Bob", "Carol"], ["Gold"], [], [], false, 3, true⟩).state.prizeList
      = [] := by decide

end SlotSanity

section ReelLemmas

lemma padLoop_mem (m : Nat) :
    ∀ (fuel : Nat) (l : List String) (x : String), x ∈ padLoop m fuel l → x ∈ l
  | 0, _, _, hx => hx
  | fuel + 1, l, x, hx => by
    rw [padLoop] at hx
    by_cases hc : 0 < l.length ∧ l.length < m
    · rw [if_pos hc] at hx
      have := padLoop_mem m fuel (l ++ l) x hx
      simpa using this
    · rwa [if_neg hc] at hx

lemma padLoop_length_ge (m : Nat) :
    ∀ (fuel : Nat) (l : List String), 0 < l.length → m ≤ l.length * 2 ^ fuel →
      m ≤ (padLoop m fuel l).length
  | 0, l, _, hle => by
    simpa using hle
  | fuel + 1, l, hpos, hle => by
    rw [padLoop]
    by_cases hc : 0 < l.length ∧ l.length < m
    · rw [if_pos hc]
      refine padLoop_length_ge m fuel (l ++ l) (by simpa using hpos) ?_
      have : l.length * 2 ^ (fuel + 1) = (l ++ l).length * 2 ^ fuel := by
        simp [Nat.pow_succ]
        ring
      omega
    · rw [if_neg hc]
      rcases Decidable.not_and_iff_or_not.mp hc with h | h
      · omega
      · omega

/-- After the doubling loop of `spin` with its actual fuel, a non-empty
shuffled list has been padded to at least `maxReelItems` items. -/
lemma padLoop_full (m : Nat) (l : List String) (hpos : 0 < l.length) :
    m ≤ (padLoop m m l).length := by
  refine padLoop_length_ge m m l hpos ?_
  have h1 : m ≤ 2 ^ m := Nat.le_of_lt (Nat.lt_two_pow m)
  have h2 : 2 ^ m ≤ l.length * 2 ^ m := Nat.le_mul_of_pos_left _ hpos
  omega

lemma populateReel_mem (m : Nat) (flag : Bool) (l : List String) (x : String)
    (hx : x ∈ populateReel m flag l) : x ∈ l := by
  rw [populateReel, jsSliceTo] at hx
  by_cases hneg : ((m : Int) - (if flag then 1 else 0)) < 0
  · rw [if_pos hneg] at hx
    exact padLoop_mem m m l x (List.take_subset _ _ hx)
  · rw [if_neg hneg] at hx
    exact padLoop_mem m m l x (List.take_subset _ _ hx)

/-- With `maxReelItems ≥ 1` the populated reel has exactly
`maxReelItems - Number(havePreviousWinner)` items. -/
lemma populateReel_length (m : Nat) (flag : Bool) (l : List String)
    (hpos : 0 < l.length) (hm : 1 ≤ m) :
    (populateReel m flag l).length = m - (if flag then 1 else 0) := by
  have hflag : ((if flag then (1 : Int) else 0)) = ((if flag then (1 : Nat) else 0) : Nat) := by
    cases flag <;> simp
  have hnneg : ¬ ((m : Int) - (if flag then 1 else 0)) < 0 := by
    cases flag <;> simp <;> omega
  have htoNat : ((m : Int) - (if flag then 1 else 0)).toNat = m - (if flag then 1 else 0) := by
    cases flag <;> simp <;> omega
  rw [populateReel, jsSliceTo, if_neg hnneg, htoNat, List.length_take]
  have hfull := padLoop_full m l hpos
  cases flag <;> simp <;> omega

/-- The populated reel, written as an exact `take` of the padded list. -/
lemma populateReel_eq_take (m : Nat) (flag : Bool) (l : List String) (hm : 1 ≤ m) :
    populateReel m flag l = (padLoop m m l).take (m - (if flag then 1 else 0)) := by
  have hnneg : ¬ ((m : Int) - (if flag then 1 else 0)) < 0 := by
    cases flag <;> simp <;> omega
  have htoNat : ((m : Int) - (if flag then 1 else 0)).toNat = m - (if flag then 1 else 0) := by
    cases flag <;> simp <;> omega
  rw [populateReel, jsSliceTo, if_neg hnneg, htoNat]

end ReelLemmas

section SpinLemmas

/-- `spin` on a non-empty list with the reel present: the exact outcome,
spelled out.  This is the single unfolding lemma all happy-path claims go
through. -/
lemma spin_of_ne_nil (r : Nat → Nat → Nat) (s : SlotState) (h : s.nameList ≠ []) :
    spin true r s =
      ⟨true,
        { s with
            randomNames := populateReel s.maxReelItems s.havePreviousWinner
              (shuffleNames r s.nameList),
            winnerList := s.winnerList
              ++ [getActivePrizeToDraw s ++ " - "
                  ++ spinWinnerName (populateReel s.maxReelItems s.havePreviousWinner
                      (shuffleNames r s.nameList))],
            nameList := if s.shouldRemoveWinner then
                spliceRemoveWinner s.nameList
                  (spinWinnerName (populateReel s.maxReelItems s.havePreviousWinner
                    (shuffleNames r s.nameList)))
              else s.nameList,
            prizeList := s.prizeList.drop 1,
            havePreviousWinner := true },
        [SlotEvent.spinStart, SlotEvent.spinEnd]⟩ := by
  have hlen : ¬ s.nameList.length = 0 := by
    simpa [List.length_eq_zero] using h
  simp [spin, hlen]

/-- A non-empty populated reel: its last element exists, is the winner
string, and lies in the pre-spin name list. -/
lemma populated_winner (r : Nat → Nat → Nat) (s : SlotState) (hr : wfRand r)
    (hn : s.nameList ≠ [])
    (hm : (if s.havePreviousWinner then 2 else 1) ≤ s.maxReelItems) :
    ∃ w, (populateReel s.maxReelItems s.havePreviousWinner
            (shuffleNames r s.nameList)).getLast? = some w ∧
      spinWinnerName (populateReel s.maxReelItems s.havePreviousWinner
        (shuffleNames r s.nameList)) = w ∧
      w ∈ s.nameList := by
  have hpos : 0 < (shuffleNames r s.nameList).length := by
    rw [shuffleNames_length r hr]
    exact List.length_pos.mpr hn
  have hm1 : 1 ≤ s.maxReelItems := by
    cases hflag : s.havePreviousWinner <;> rw [hflag] at hm <;> simp at hm <;> omega
  have hlen := populateReel_length s.maxReelItems s.havePreviousWinner
    (shuffleNames r s.nameList) hpos hm1
  have hne : populateReel s.maxReelItems s.havePreviousWinner
      (shuffleNames r s.nameList) ≠ [] := by
    refine List.ne_nil_of_length_pos ?_
    rw [hlen]
    cases hflag : s.havePreviousWinner <;> rw [hflag] at hm <;> simp at hm ⊢ <;> omega
  refine ⟨(populateReel s.maxReelItems s.havePreviousWinner
    (shuffleNames r s.nameList)).getLast hne, List.getLast?_eq_getLast _ hne, ?_, ?_⟩
  · rw [spinWinnerName, List.getLast?_eq_getLast _ hne]
    rfl
  · have hmem := List.getLast_mem hne
    exact shuffleNames_mem r hr s.nameList _
      (populateReel_mem s.maxReelItems s.havePreviousWinner _ _ hmem)

end SpinLemmas

section RemovalLemmas

lemma exists_findIdx?_of_mem (w : String) :
    ∀ (l : List String), w ∈ l → ∃ i, l.findIdx? (fun name => name == w) = some i
  | [], h => absurd h (by simp)
  | x :: t, h => by
    rw [List.findIdx?_cons]
    by_cases hx : (x == w) = true
    · exact ⟨0, by rw [if_pos hx]⟩
    · have hwt : w ∈ t := by
        rcases List.mem_cons.mp h with h1 | h1
        · rw [h1] at hx
          simp at hx
        · exact h1
      obtain ⟨i, hi⟩ := exists_findIdx?_of_mem w t hwt
      refine ⟨i + 1, ?_⟩
      rw [if_neg hx, List.findIdx?_succ, hi]
      rfl

/-- When the winner occurs in the list, the `findIndex`/`splice` pair of the
source removes exactly the first occurrence, i.e. agrees with `List.erase`. -/
lemma spliceRemoveWinner_eq_erase :
    ∀ (l : List String) (w : String), w ∈ l → spliceRemoveWinner l w = l.erase w
  | [], w, hw => absurd hw (by simp)
  | x :: t, w, hw => by
    rw [spliceRemoveWinner, List.findIdx?_cons]
    by_cases hx : (x == w) = true
    · rw [if_pos hx, List.erase_cons, if_pos hx]
      rfl
    · have hwt : w ∈ t := by
        rcases List.mem_cons.mp hw with h1 | h1
        · rw [h1] at hx
          simp at hx
        · exact h1
      obtain ⟨i, hi⟩ := exists_findIdx?_of_mem w t hwt
      rw [if_neg hx, List.findIdx?_succ, hi, List.erase_cons, if_neg hx]
      show (x :: t).eraseIdx (i + 1) = x :: t.erase w
      have ht : spliceRemoveWinner t w = t.eraseIdx i := by
        rw [spliceRemoveWinner, hi]
      rw [List.eraseIdx_cons_succ, ← ht, spliceRemoveWinner_eq_erase t w hwt]

end RemovalLemmas

section Claims

/-- C3: for every finite input list, `shuffleNames` returns a list with
exactly the same multiset of elements as the input (hence the same length),
and the empty input yields the empty output.  (The embedding is pure, so
the input list itself is untouched by construction, which is the shallow
counterpart of the source's no-mutation guarantee.) -/
theorem C3_shuffleNames_preserves_multiset (r : Nat → Nat → Nat) (l : List String)
    (hr : wfRand r) :
    (shuffleNames r l).Perm l ∧ (shuffleNames r l).length = l.length ∧
      shuffleNames r ([] : List String) = [] :=
  ⟨shuffleNames_perm r hr l, shuffleNames_length r hr l, rfl⟩

/-- C3 witness: the multiset preservation evaluated on a concrete list and
a concrete well-formed draw stream. -/
theorem C3_witness :
    (shuffleNames (fun k n => k % n) (["a", "b", "c"] : List String)).Perm ["a", "b", "c"] ∧
    (shuffleNames (fun k n => k % n) (["a", "b", "c"] : List String)).length
      = (["a", "b", "c"] : List String).length ∧
    shuffleNames (fun k n => k % n) ([] : List String) = [] :=
  C3_shuffleNames_preserves_multiset (fun k n => k % n) ["a", "b", "c"]
    (fun k n h => Nat.mod_lt k h)

/-- C9 counterexample: with the identical (well-formed) draw stream that
always returns 0, the implemented shuffle of `["a", "b"]` keeps the order
while the reference Fisher-Yates swaps, so the returned sequence does not
equal the reference result. -/
theorem C9_counterexample :
    wfRand (fun _ _ => 0) ∧
    shuffleNames (fun _ _ => 0) (["a", "b"] : List String)
      ≠ fisherYates (fun _ _ => 0) (["a", "b"] : List String) :=
  ⟨fun _ _ h => h, by decide⟩

/-- C9 as amended: given the same stream of uniform random draws, the
implemented shuffle equals the *reverse* of the reference Fisher-Yates
result (the k-th element the source pushes is exactly the element the
reference finalises at the k-th position from the end). -/
theorem C9_shuffleNames_is_reversed_fisherYates (r : Nat → Nat → Nat) (l : List String)
    (hr : wfRand r) :
    shuffleNames r l = (fisherYates r l).reverse :=
  shuffleNames_eq_reverse_fisherYates r hr l

/-- C9 witness: the reversed-Fisher-Yates correspondence evaluated on a
concrete list and a concrete well-formed draw stream. -/
theorem C9_witness :
    shuffleNames (fun k n => k % n) (["x", "y", "z", "w"] : List String)
      = (fisherYates (fun k n => k % n) (["x", "y", "z", "w"] : List String)).reverse :=
  C9_shuffleNames_is_reversed_fisherYates (fun k n => k % n) ["x", "y", "z", "w"]
    (fun k n h => Nat.mod_lt k h)

/-- C5: `spin()` on a state with an empty name list returns false, leaves
the whole state (name list, prize queue, winner log, previous-winner flag,
reel items) untouched and fires no callback at all, whatever the random
stream and whether or not the reel surface is present. -/
theorem C5_spin_on_empty_nameList_fails_cleanly (reelOk : Bool) (r : Nat → Nat → Nat)
    (s : SlotState) (h : s.nameList = []) :
    spin reelOk r s = ⟨false, s, []⟩ := by
  have hlen : s.nameList.length = 0 := by rw [h]; rfl
  simp [spin, hlen]

/-- C5 witness: a freshly constructed engine has an empty name list, and
spinning it fails with no state change and no events. -/
theorem C5_witness :
    spin true (fun _ _ => 0) (mkSlot ⟨30, true⟩) = ⟨false, mkSlot ⟨30, true⟩, []⟩ :=
  C5_spin_on_empty_nameList_fails_cleanly true (fun _ _ => 0) (mkSlot ⟨30, true⟩) rfl

/-- C6 counterexample: on a freshly constructed engine — which is not
spinning — `forceStopSpin` is *not* a no-op: it fires `onSpinEnd` and
flips the previous-winner flag from false to true. -/
theorem C6_counterexample :
    (mkSlot ⟨30, true⟩).havePreviousWinner = false ∧
    (forceStopSpin (mkSlot ⟨30, true⟩)).events = [SlotEvent.spinEnd] ∧
    (forceStopSpin (mkSlot ⟨30, true⟩)).state.havePreviousWinner = true :=
  ⟨rfl, rfl, rfl⟩

/-- C6 as amended: `forceStopSpin` never checks any spin state.  On every
state it returns true, fires `onSpinEnd` exactly once, sets the
previous-winner flag to true and leaves the name list, prize queue, winner
log and reel items unchanged; it is idempotent on the state (a second call
reproduces the same state) but fires the hook again on every call. -/
theorem C6_forceStopSpin_unconditional (s : SlotState) :
    forceStopSpin s = ⟨true, { s with havePreviousWinner := true }, [SlotEvent.spinEnd]⟩ ∧
    (forceStopSpin s).state.nameList = s.nameList ∧
    (forceStopSpin s).state.prizeList = s.prizeList ∧
    (forceStopSpin s).state.winnerList = s.winnerList ∧
    (forceStopSpin s).state.randomNames = s.randomNames ∧
    (forceStopSpin (forceStopSpin s).state).state = (forceStopSpin s).state ∧
    (forceStopSpin (forceStopSpin s).state).events = [SlotEvent.spinEnd] :=
  ⟨rfl, rfl, rfl, rfl, rfl, rfl, rfl⟩

end Claims

section ClaimsSpin

/-- C1 counterexample: the claim fails on a reachable configuration.  With
`maxReelItems = 1` and a previous winner displayed, `spin` on the non-empty
name list `["a"]` *succeeds* but populates an empty reel
(`slice(0, 1 - 1)`), so the logged entry is `"------- - undefined"` and
the logged winner name `"undefined"` is not an element of the pre-spin
name list. -/
theorem C1_counterexample :
    wfRand (fun _ _ => 0) ∧
    (spin true (fun _ _ => 0) ⟨["a"], [], [], [], true, 1, false⟩).success = true ∧
    (spin true (fun _ _ => 0) ⟨["a"], [], [], [], true, 1, false⟩).state.winnerList
      = ["------- - undefined"] ∧
    ¬ ("undefined" ∈ (["a"] : List String)) :=
  ⟨fun _ _ h => h, by decide, by decide, by decide⟩

/-- C1 as amended: for every successful spin on a non-empty name list whose
populated reel is non-empty (equivalently `maxReelItems` is at least 2 when
a previous winner is displayed, at least 1 otherwise), the winner is the
last item of the populated reel, exactly one entry — active prize label,
`" - "`, winner name — is appended at the end of the winner log, and the
winner name is an element of the pre-spin name list. -/
theorem C1_winner_is_last_item_and_logged_once (r : Nat → Nat → Nat) (s : SlotState)
    (hr : wfRand r) (hn : s.nameList ≠ [])
    (hm : (if s.havePreviousWinner then 2 else 1) ≤ s.maxReelItems) :
    (spin true r s).success = true ∧
    (spin true r s).state.randomNames.getLast?
      = some (spinWinnerName (spin true r s).state.randomNames) ∧
    (spin true r s).state.winnerList
      = s.winnerList ++ [getActivePrizeToDraw s ++ " - "
          ++ spinWinnerName (spin true r s).state.randomNames] ∧
    spinWinnerName (spin true r s).state.randomNames ∈ s.nameList := by
  obtain ⟨w, hlast, hwn, hmem⟩ := populated_winner r s hr hn hm
  rw [spin_of_ne_nil r s hn]
  refine ⟨rfl, ?_, rfl, ?_⟩
  · show (populateReel s.maxReelItems s.havePreviousWinner
        (shuffleNames r s.nameList)).getLast? = _
    rw [hlast, hwn]
  · show spinWinnerName (populateReel s.maxReelItems s.havePreviousWinner
        (shuffleNames r s.nameList)) ∈ s.nameList
    rw [hwn]
    exact hmem

/-- C1 witness: the amended claim evaluated on a concrete two-name state
with `maxReelItems = 5`, no previous winner, prize "Gold". -/
theorem C1_witness :
    (spin true (fun k n => k % n)
        ⟨["Alice", "Bob"], ["Gold"], [], [], false, 5, true⟩).success = true ∧
    (spin true (fun k n => k % n)
        ⟨["Alice", "Bob"], ["Gold"], [], [], false, 5, true⟩).state.randomNames.getLast?
      = some (spinWinnerName (spin true (fun k n => k % n)
          ⟨["Alice", "Bob"], ["Gold"], [], [], false, 5, true⟩).state.randomNames) ∧
    (spin true (fun k n => k % n)
        ⟨["Alice", "Bob"], ["Gold"], [], [], false, 5, true⟩).state.winnerList
      = [] ++ [getActivePrizeToDraw ⟨["Alice", "Bob"], ["Gold"], [], [], false, 5, true⟩
          ++ " - " ++ spinWinnerName (spin true (fun k n => k % n)
            ⟨["Alice", "Bob"], ["Gold"], [], [], false, 5, true⟩).state.randomNames] ∧
    spinWinnerName (spin true (fun k n => k % n)
        ⟨["Alice", "Bob"], ["Gold"], [], [], false, 5, true⟩).state.randomNames
      ∈ (["Alice", "Bob"] : List String) :=
  C1_winner_is_last_item_and_logged_once (fun k n => k % n)
    ⟨["Alice", "Bob"], ["Gold"], [], [], false, 5, true⟩
    (fun k n h => Nat.mod_lt k h) (by decide) (by decide)

/-- C2: for every spin on a non-empty name list with `maxReelItems ≥ 1`,
the shuffled list is doubled until its length reaches `maxReelItems`, the
populated reel is the prefix of that padded list of length exactly
`maxReelItems` (no previous winner) or `maxReelItems - 1` (previous winner
displayed), and every populated item is an element of the pre-spin name
list. -/
theorem C2_reel_population_policy (r : Nat → Nat → Nat) (s : SlotState)
    (hr : wfRand r) (hn : s.nameList ≠ []) (hm : 1 ≤ s.maxReelItems) :
    (spin true r s).success = true ∧
    s.maxReelItems
      ≤ (padLoop s.maxReelItems s.maxReelItems (shuffleNames r s.nameList)).length ∧
    (spin true r s).state.randomNames
      = (padLoop s.maxReelItems s.maxReelItems (shuffleNames r s.nameList)).take
          (s.maxReelItems - (if s.havePreviousWinner then 1 else 0)) ∧
    (spin true r s).state.randomNames.length
      = s.maxReelItems - (if s.havePreviousWinner then 1 else 0) ∧
    ∀ x ∈ (spin true r s).state.randomNames, x ∈ s.nameList := by
  have hpos : 0 < (shuffleNames r s.nameList).length := by
    rw [shuffleNames_length r hr]
    exact List.length_pos.mpr hn
  rw [spin_of_ne_nil r s hn]
  refine ⟨rfl, padLoop_full _ _ hpos, ?_, ?_, ?_⟩
  · exact populateReel_eq_take _ _ _ hm
  · exact populateReel_length _ _ _ hpos hm
  · intro x hx
    exact shuffleNames_mem r hr _ x (populateReel_mem _ _ _ x hx)

/-- C2 witness: the population policy evaluated on the spec's own example,
a 2-name list with `maxReelItems = 5` and no previous winner: the populated
reel has exactly 5 items. -/
theorem C2_witness :
    (spin true (fun k n => k % n)
        ⟨["Ann", "Ben"], [], [], [], false, 5, true⟩).success = true ∧
    (spin true (fun k n => k % n)
        ⟨["Ann", "Ben"], [], [], [], false, 5, true⟩).state.randomNames.length
      = 5 - (if false then 1 else 0) := by
  have h := C2_reel_population_policy (fun k n => k % n)
    ⟨["Ann", "Ben"], [], [], [], false, 5, true⟩
    (fun k n hh => Nat.mod_lt k hh) (by decide) (by decide)
  exact ⟨h.1, h.2.2.2.1⟩

end ClaimsSpin

section ClaimsRemaining

/-- C4 counterexample: with `maxReelItems = 1`, a previous winner displayed
and removal enabled, `spin` on `["a", "b"]` populates an empty reel, logs
the winner name `"undefined"` (which occurs nowhere in the list), and the
`findIndex = -1` / `splice(-1, 1)` pair then removes the *last* name `"b"`
— so the removed element does not equal the logged winner and no occurrence
of the winner was removed. -/
theorem C4_counterexample :
    wfRand (fun _ _ => 0) ∧
    (spin true (fun _ _ => 0) ⟨["a", "b"], [], [], [], true, 1, true⟩).success = true ∧
    (spin true (fun _ _ => 0) ⟨["a", "b"], [], [], [], true, 1, true⟩).state.winnerList
      = ["------- - undefined"] ∧
    (spin true (fun _ _ => 0) ⟨["a", "b"], [], [], [], true, 1, true⟩).state.nameList
      = ["a"] ∧
    ¬ ("undefined" ∈ (["a", "b"] : List String)) :=
  ⟨fun _ _ h => h, by decide, by decide, by decide, by decide⟩

/-- C4 as amended: for every successful spin whose populated reel is
non-empty (`maxReelItems ≥ 2` when a previous winner is displayed, `≥ 1`
otherwise): if removal is enabled, the post-spin name list is the pre-spin
list with exactly the first occurrence of the logged winner erased, so its
length drops by one and the removed element equals the logged winner; if
removal is disabled the name list is unchanged. -/
theorem C4_winner_removal (r : Nat → Nat → Nat) (s : SlotState)
    (hr : wfRand r) (hn : s.nameList ≠ [])
    (hm : (if s.havePreviousWinner then 2 else 1) ≤ s.maxReelItems) :
    (spin true r s).success = true ∧
    spinWinnerName (spin true r s).state.randomNames ∈ s.nameList ∧
    (s.shouldRemoveWinner = true →
      (spin true r s).state.nameList
        = s.nameList.erase (spinWinnerName (spin true r s).state.randomNames) ∧
      (spin true r s).state.nameList.length = s.nameList.length - 1) ∧
    (s.shouldRemoveWinner = false → (spin true r s).state.nameList = s.nameList) := by
  obtain ⟨w, hlast, hwn, hmem⟩ := populated_winner r s hr hn hm
  rw [spin_of_ne_nil r s hn]
  refine ⟨rfl, ?_, ?_, ?_⟩
  · show spinWinnerName (populateReel s.maxReelItems s.havePreviousWinner
        (shuffleNames r s.nameList)) ∈ s.nameList
    rw [hwn]
    exact hmem
  · intro hrem
    show (if s.shouldRemoveWinner then _ else s.nameList) = _ ∧
      (if s.shouldRemoveWinner then _ else s.nameList).length = _
    rw [hrem, if_pos rfl, hwn, spliceRemoveWinner_eq_erase s.nameList w hmem]
    exact ⟨rfl, List.length_erase_of_mem hmem⟩
  · intro hrem
    show (if s.shouldRemoveWinner then _ else s.nameList) = s.nameList
    rw [hrem, if_neg (by simp)]

/-- C4 witness: removal enabled on a concrete two-name state; the post-spin
name list is the pre-spin list minus the first occurrence of the logged
winner, one element shorter. -/
theorem C4_witness :
    (spin true (fun _ _ => 0) ⟨["Ann", "Ben"], [], [], [], false, 4, true⟩).success = true ∧
    (spin true (fun _ _ => 0)
        ⟨["Ann", "Ben"], [], [], [], false, 4, true⟩).state.nameList
      = (["Ann", "Ben"] : List String).erase
          (spinWinnerName (spin true (fun _ _ => 0)
            ⟨["Ann", "Ben"], [], [], [], false, 4, true⟩).state.randomNames) ∧
    (spin true (fun _ _ => 0)
        ⟨["Ann", "Ben"], [], [], [], false, 4, true⟩).state.nameList.length
      = (["Ann", "Ben"] : List String).length - 1 := by
  have h := C4_winner_removal (fun _ _ => 0) ⟨["Ann", "Ben"], [], [], [], false, 4, true⟩
    (fun _ _ hh => hh) (by decide) (by decide)
  exact ⟨h.1, (h.2.2.1 rfl).1, (h.2.2.1 rfl).2⟩

/-- C7 counterexample: the source constructor performs no validation at
all, so a configuration with `maxReelItems = 0 < 1` is *not* rejected: the
engine is constructed with that value stored, names can be set, and even
`spin` reports success (with an empty populated reel) — the claimed
fail-fast rejection does not exist anywhere. -/
theorem C7_counterexample :
    (mkSlot ⟨0, true⟩).maxReelItems = 0 ∧
    (spin true (fun _ _ => 0) ((setNames (mkSlot ⟨0, true⟩) ["a"]).1)).success = true ∧
    (spin true (fun _ _ => 0) ((setNames (mkSlot ⟨0, true⟩) ["a"]).1)).state.randomNames
      = [] :=
  ⟨rfl, by decide, by decide⟩

/-- C7 as amended: construction never validates `maxReelItems`.  A
configuration with `maxReelItems = 0` yields a normally constructed engine
holding that configuration, and the misconfiguration is not surfaced at the
first spin either: `spin` on any non-empty name list still reports
success. -/
theorem C7_construction_accepts_invalid_config (rmw : Bool) (names : List String)
    (r : Nat → Nat → Nat) (h : names ≠ []) :
    mkSlot ⟨0, rmw⟩ = ⟨[], [], [], [], false, 0, rmw⟩ ∧
    (setNames (mkSlot ⟨0, rmw⟩) names).1.maxReelItems = 0 ∧
    (spin true r ((setNames (mkSlot ⟨0, rmw⟩) names).1)).success = true := by
  refine ⟨rfl, rfl, ?_⟩
  have hn : ((setNames (mkSlot ⟨0, rmw⟩) names).1).nameList ≠ [] := h
  rw [spin_of_ne_nil r _ hn]

/-- C7 witness: the unvalidated construction and the still-successful spin,
evaluated at `maxReelItems = 0`, removal enabled, name list `["a"]`. -/
theorem C7_witness :
    mkSlot ⟨0, true⟩ = ⟨[], [], [], [], false, 0, true⟩ ∧
    (setNames (mkSlot ⟨0, true⟩) ["a"]).1.maxReelItems = 0 ∧
    (spin true (fun k n => k % n) ((setNames (mkSlot ⟨0, true⟩) ["a"]).1)).success = true :=
  C7_construction_accepts_invalid_config true ["a"] (fun k n => k % n) (by decide)

/-- C8: every successful spin pops exactly the head of the prize queue
(`splice(0, 1)`, a no-op only on the already-empty queue), independently of
the removal setting, and the winner-log entry of that spin is built from
the *pre-pop* queue head — the sentinel `"-------"` when the queue was
empty at spin time, the head label otherwise. -/
theorem C8_prize_consumed_unconditionally (r : Nat → Nat → Nat) (s : SlotState)
    (h : s.nameList ≠ []) :
    (spin true r s).success = true ∧
    (spin true r s).state.prizeList = s.prizeList.drop 1 ∧
    (spin true r s).state.winnerList
      = s.winnerList ++ [getActivePrizeToDraw s ++ " - "
          ++ spinWinnerName (spin true r s).state.randomNames] ∧
    (s.prizeList = [] → getActivePrizeToDraw s = "-------") ∧
    ∀ p ps, s.prizeList = p :: ps → getActivePrizeToDraw s = p := by
  rw [spin_of_ne_nil r s h]
  refine ⟨rfl, rfl, rfl, ?_, ?_⟩
  · intro hp
    rw [getActivePrizeToDraw, hp]
    rfl
  · intro p ps hp
    rw [getActivePrizeToDraw, hp]
    rfl

/-- C8 witness: a spin with two queued prizes pops exactly the head and
logs the pre-pop head label. -/
theorem C8_witness :
    (spin true (fun _ _ => 0)
        ⟨["A"], ["Gold", "Silver"], [], [], false, 3, true⟩).success = true ∧
    (spin true (fun _ _ => 0)
        ⟨["A"], ["Gold", "Silver"], [], [], false, 3, true⟩).state.prizeList
      = (["Gold", "Silver"] : List String).drop 1 := by
  have h := C8_prize_consumed_unconditionally (fun _ _ => 0)
    ⟨["A"], ["Gold", "Silver"], [], [], false, 3, true⟩ (by decide)
  exact ⟨h.1, h.2.1⟩

/-- C10 counterexample: the populated reel can be empty outside the claimed
single configuration.  With `maxReelItems = 0` (accepted unchecked by the
constructor) and *no* previous winner displayed, the spin succeeds with an
empty populated reel, so the last-element access is out of bounds and the
logged name is the JavaScript artefact `"undefined"`. -/
theorem C10_counterexample :
    wfRand (fun _ _ => 0) ∧
    ((setNames (mkSlot ⟨0, false⟩) ["a"]).1).havePreviousWinner = false ∧
    (spin true (fun _ _ => 0) ((setNames (mkSlot ⟨0, false⟩) ["a"]).1)).success = true ∧
    (spin true (fun _ _ => 0) ((setNames (mkSlot ⟨0, false⟩) ["a"]).1)).state.randomNames
      = [] :=
  ⟨fun _ _ h => h, rfl, by decide, by decide⟩

/-- C10 as amended: restricted to configurations with `maxReelItems ≥ 1`,
the claim holds: for every spin on a non-empty name list with
`maxReelItems ≥ 2` or no previous winner displayed, the populated reel is
non-empty, the access to its last element is in bounds, and the logged
winner is a genuine element of the pre-spin name list; under
`maxReelItems ≥ 1` the reel can be empty only when `maxReelItems = 1` with
a previous winner displayed. -/
theorem C10_populated_reel_nonempty (r : Nat → Nat → Nat) (s : SlotState)
    (hr : wfRand r) (hn : s.nameList ≠ []) (h1 : 1 ≤ s.maxReelItems)
    (h2 : 2 ≤ s.maxReelItems ∨ s.havePreviousWinner = false) :
    (spin true r s).state.randomNames ≠ [] ∧
    (spin true r s).state.randomNames.getLast?
      = some (spinWinnerName (spin true r s).state.randomNames) ∧
    spinWinnerName (spin true r s).state.randomNames ∈ s.nameList := by
  have hm : (if s.havePreviousWinner then 2 else 1) ≤ s.maxReelItems := by
    cases hflag : s.havePreviousWinner
    · simpa using h1
    · rcases h2 with h | h
      · simpa using h
      · rw [hflag] at h
        cases h
  obtain ⟨w, hlast, hwn, hmem⟩ := populated_winner r s hr hn hm
  rw [spin_of_ne_nil r s hn]
  refine ⟨?_, ?_, ?_⟩
  · show populateReel s.maxReelItems s.havePreviousWinner
        (shuffleNames r s.nameList) ≠ []
    intro hcontr
    rw [hcontr] at hlast
    cases hlast
  · show (populateReel s.maxReelItems s.havePreviousWinner
        (shuffleNames r s.nameList)).getLast? = _
    rw [hlast, hwn]
  · show spinWinnerName (populateReel s.maxReelItems s.havePreviousWinner
        (shuffleNames r s.nameList)) ∈ s.nameList
    rw [hwn]
    exact hmem

/-- C10 witness: the amended claim evaluated on a concrete state with
`maxReelItems = 2` and a previous winner displayed. -/
theorem C10_witness :
    (spin true (fun k n => k % n)
        ⟨["Ada", "Bo"], [], [], [], true, 2, false⟩).state.randomNames ≠ [] ∧
    (spin true (fun k n => k % n)
        ⟨["Ada", "Bo"], [], [], [], true, 2, false⟩).state.randomNames.getLast?
      = some (spinWinnerName (spin true (fun k n => k % n)
          ⟨["Ada", "Bo"], [], [], [], true, 2, false⟩).state.randomNames) ∧
    spinWinnerName (spin true (fun k n => k % n)
        ⟨["Ada", "Bo"], [], [], [], true, 2, false⟩).state.randomNames
      ∈ (["Ada", "Bo"] : List String) :=
  C10_populated_reel_nonempty (fun k n => k % n) ⟨["Ada", "Bo"], [], [], [], true, 2, false⟩
    (fun k n h => Nat.mod_lt k h) (by decide) (by decide) (Or.inl (by decide))

end ClaimsRemaining
